import Mathlib

/-!
Verification of the STL viewer's decoding and framing pipeline.

The source program (`src/App.jsx`) is a React application whose algorithmic
core is:

* `parseSTL`       — format detection and dispatch (binary vs ASCII STL);
* `parseBinarySTL` — byte-level decoding of the fixed binary STL layout;
* `parseASCIISTL`  — regex-driven extraction of facets from ASCII STL text;
* `CameraController` — bounding-box driven camera-fit computation, gated by
  a `fitted` flag;
* `loadSTLFile` / `handleFileUpload` — the load pipeline and its error
  boundary.

This file gives a shallow embedding of that core and proves/refutes the
specification claims about it.

Modelling conventions:

* A byte buffer (JS `ArrayBuffer` contents) is a `List Nat` of bytes.
* `DataView` reads are bounds-checked in JS — an out-of-range read throws a
  `RangeError`.  They are embedded as `Option`-returning reads that yield
  `none` exactly when JS would throw.
* 32-bit floats are represented by their IEEE-754 bit patterns (the
  little-endian 32-bit word read from the buffer); the decoder never
  computes with float values, it only moves them, so the bit-pattern
  representation is faithful.
* Real-valued geometry (the camera fit) is embedded over `ℝ`, idealising
  IEEE doubles as exact reals; the claims about it are claims about the
  shape of the formulas, not about rounding.
-/

/-! ### Byte-level reads (`DataView`, little-endian) -/

/-- The little-endian 32-bit word whose bytes sit at offsets
`off`, `off+1`, `off+2`, `off+3` of the buffer.  Total function used only
under an in-bounds guard, mirroring `view.getUint32(off, true)` /
`view.getFloat32(off, true)`. -/
def word32At (buf : List Nat) (off : Nat) : Nat :=
  buf.getD off 0 + 256 * buf.getD (off + 1) 0 +
    65536 * buf.getD (off + 2) 0 + 16777216 * buf.getD (off + 3) 0

/-- Embedding of `view.getUint32(off, true)`: JS `DataView` reads are
bounds-checked and throw a `RangeError` when `off + 4` exceeds the buffer
length; the thrown case is `none`. -/
def readU32LE (buf : List Nat) (off : Nat) : Option Nat :=
  if off + 4 ≤ buf.length then some (word32At buf off) else none

/-- Embedding of `view.getFloat32(off, true)`: same bounds behaviour as
`getUint32`; the float value is represented by its 32-bit pattern. -/
def readF32LE (buf : List Nat) (off : Nat) : Option Nat :=
  if off + 4 ≤ buf.length then some (word32At buf off) else none

/-- A decoded 3-D point, each coordinate a 32-bit float bit pattern. -/
abbrev Pt := Nat × Nat × Nat

/-- The three consecutive 32-bit words at `off`, `off+4`, `off+8` (total
version, used to state what a successful vertex read returns). -/
def vertexAt (buf : List Nat) (off : Nat) : Pt :=
  (word32At buf off, word32At buf (off + 4), word32At buf (off + 8))

/-- One vertex read of `parseBinarySTL`'s inner loop
(`j = 0,1,2` at byte offsets `off`, `off+4`, `off+8`). -/
def readVertex (buf : List Nat) (off : Nat) : Option Pt := do
  let x ← readF32LE buf off
  let y ← readF32LE buf (off + 4)
  let z ← readF32LE buf (off + 8)
  pure (x, y, z)

/-- One 50-byte triangle record of `parseBinarySTL` starting at `off`:
the 12-byte stored normal at record offsets 0–11 is skipped, the three
vertices are read at record offsets 12, 24, 36 (`offset + 12 + v*12`). -/
def readTri (buf : List Nat) (off : Nat) : Option (List Pt) := do
  let v0 ← readVertex buf (off + 12)
  let v1 ← readVertex buf (off + 24)
  let v2 ← readVertex buf (off + 36)
  pure [v0, v1, v2]

/-- The main loop of `parseBinarySTL`: triangles `i, i+1, …, i+k-1`,
each at byte offset `84 + i*50`, appended in order. -/
def readTrisAux (buf : List Nat) : Nat → Nat → Option (List Pt)
  | _, 0 => some []
  | i, k + 1 => do
    let t ← readTri buf (84 + i * 50)
    let rest ← readTrisAux buf (i + 1) k
    pure (t ++ rest)

/-- Embedding of `parseBinarySTL(buffer)`.

```js
const view = new DataView(buffer);
const header = new Uint8Array(buffer, 0, 80);   // throws if buffer < 80 bytes
const numTriangles = view.getUint32(80, true);  // throws if buffer < 84 bytes
for (let i = 0; i < numTriangles; i++) { … }    // reads throw when out of range
```

`none` models a thrown `RangeError`.  The `Uint8Array` header view is
constructed before the count is read, so a buffer shorter than 80 bytes
fails at that construction. -/
def parseBinarySTL (buf : List Nat) : Option (List Pt) :=
  if buf.length < 80 then none
  else
    match readU32LE buf 80 with
    | none => none
    | some n => readTrisAux buf 0 n

/-- Specification-side closed form: the three vertices of record `i`
(at buffer offset `off = 84 + i*50`), stored normal skipped. -/
def triPointsAt (buf : List Nat) (off : Nat) : List Pt :=
  [vertexAt buf (off + 12), vertexAt buf (off + 24), vertexAt buf (off + 36)]

/-- Specification-side closed form of the whole binary decode: triangle
order, then within-triangle vertex order. -/
def binExpected (buf : List Nat) (n : Nat) : List Pt :=
  (List.range n).flatMap (fun i => triPointsAt buf (84 + i * 50))

/-! ### The ASCII decoder (`parseASCIISTL`)

The source extracts facets with one global JavaScript regex:

```js
const regex = /facet\s+normal\s+[\d.\-e]+\s+[\d.\-e]+\s+[\d.\-e]+\s+outer\s+loop\s+vertex\s+([\d.\-e]+)\s+([\d.\-e]+)\s+([\d.\-e]+)\s+vertex\s+…\s+endloop\s+endfacet/g;
while ((match = regex.exec(text)) !== null) {
  for (let i = 1; i <= 9; i += 3) {
    positions.push(parseFloat(match[i]), parseFloat(match[i+1]), parseFloat(match[i+2]));
  }
}
```

The pattern is a plain concatenation of literal words, `\s+` gaps and
`[\d.\-e]+` number tokens.  The character class `[\d.\-e]` (digits, `.`,
`-`, lowercase `e`) is disjoint from `\s`, every literal word starts with a
non-space, non-class character, every number token is followed by `\s+`,
and every `\s+` is followed by a literal word or a number token.  Hence
greedy maximal-munch matching of each piece is the unique way the pattern
can match at a position, and the backtracking regex engine is equivalent
to the deterministic token matcher embedded below.  `regex.exec` with the
`g` flag yields the leftmost non-overlapping matches in document order,
restarting after each match — embedded by `scanFacetsF`, which advances
one character on failure and past the match on success.

Matched coordinates are represented by their literal source tokens
(`match[i]`, the exact captured strings); the program applies
`parseFloat` to each before pushing, which is a per-token conversion that
does not change count, order or grouping. -/

/-- JS `\s` (and `String.trim`'s whitespace), restricted to the characters
relevant here: space, tab, line feed, vertical tab, form feed, carriage
return, and NBSP.  (The remaining Unicode space separators JS would also
accept never occur in the claims.) -/
def isJsSpace (c : Char) : Bool :=
  c == ' ' || c == '\t' || c == '\n' || c == '\x0b' || c == '\x0c' || c == '\r' ||
    c == ' '

/-- The regex character class `[\d.\-e]`: digits, dot, minus, lowercase
`e`.  Note: no `+`, no uppercase `E`. -/
def isNumChar (c : Char) : Bool :=
  c.isDigit || c == '.' || c == '-' || c == 'e'

/-- Match an exact literal word at the head of the input (a literal run in
the regex), returning the rest. -/
def eatLit : List Char → List Char → Option (List Char)
  | [], l => some l
  | _ :: _, [] => none
  | p :: ps, c :: cs => if c = p then eatLit ps cs else none

/-- Match `\s+` at the head of the input: at least one whitespace
character, then greedily all following whitespace. -/
def dropWs1 : List Char → Option (List Char)
  | [] => none
  | c :: cs => if isJsSpace c then some (cs.dropWhile isJsSpace) else none

/-- Match `[\d.\-e]+` at the head of the input: at least one class
character, greedily extended; returns the matched token and the rest. -/
def takeNum1 : List Char → Option (List Char × List Char)
  | [] => none
  | c :: cs =>
    if isNumChar c then some (c :: cs.takeWhile isNumChar, cs.dropWhile isNumChar)
    else none

/-- One piece of the facet regex: a literal word, a `\s+` gap, or a
`[\d.\-e]+` number token (`cap` tells whether the regex parenthesises —
captures — it). -/
inductive Tok where
  | lit (s : List Char)
  | ws
  | num (cap : Bool)

/-- Run a token-list pattern at the head of the input.  Returns the
uncaptured number tokens (the facet normal), the captured number tokens
(the nine vertex coordinates, `match[1]`–`match[9]`), and the rest of the
input after the match. -/
def runPat : List Tok → List Char → Option (List String × List String × List Char)
  | [], l => some ([], [], l)
  | .lit s :: ps, l =>
    match eatLit s l with
    | none => none
    | some r => runPat ps r
  | .ws :: ps, l =>
    match dropWs1 l with
    | none => none
    | some r => runPat ps r
  | .num cap :: ps, l =>
    match takeNum1 l with
    | none => none
    | some (t, r) =>
      match runPat ps r with
      | none => none
      | some (ns, vs, rest) =>
        if cap then some (ns, String.mk t :: vs, rest)
        else some (String.mk t :: ns, vs, rest)

/-- The facet regex, piece by piece.  `num false` are the three facet
normal components (parsed but not captured), `num true` the nine captured
vertex coordinates. -/
def facetPat : List Tok :=
  [.lit "facet".data, .ws, .lit "normal".data, .ws,
   .num false, .ws, .num false, .ws, .num false, .ws,
   .lit "outer".data, .ws, .lit "loop".data, .ws,
   .lit "vertex".data, .ws, .num true, .ws, .num true, .ws, .num true, .ws,
   .lit "vertex".data, .ws, .num true, .ws, .num true, .ws, .num true, .ws,
   .lit "vertex".data, .ws, .num true, .ws, .num true, .ws, .num true, .ws,
   .lit "endloop".data, .ws, .lit "endfacet".data]

/-- Attempt the facet regex at the current position. -/
def matchFacetAt (l : List Char) : Option (List String × List String × List Char) :=
  runPat facetPat l

/-- The `regex.exec` loop: scan left to right, emit each non-overlapping
match in document order, resume after the matched text.  `fuel` is an
upper bound on the number of scan steps; it is instantiated with the input
length, which suffices because every step consumes at least one
character. -/
def scanFacetsF : Nat → List Char → List (List String × List String)
  | 0, _ => []
  | _ + 1, [] => []
  | fuel + 1, c :: cs =>
    match matchFacetAt (c :: cs) with
    | some (ns, vs, r) => (ns, vs) :: scanFacetsF fuel r
    | none => scanFacetsF fuel cs

/-- All regex matches of the facet grammar in the text, in document
order. -/
def asciiMatches (t : String) : List (List String × List String) :=
  scanFacetsF t.data.length t.data

/-- Embedding of `parseASCIISTL(text)`'s `positions` array: for each match
in order, push the nine captured coordinate tokens `match[1]`–`match[9]`.
Coordinates are represented by their captured literal tokens (see the
section comment); the facet normal tokens (`m.1`) are discarded exactly as
in the source. -/
def parseASCIISTL (t : String) : List String :=
  (asciiMatches t).foldl (fun acc m => acc ++ m.2) []

/-- Group a flat coordinate list into 3-component points, mirroring
`new THREE.Float32BufferAttribute(positions, 3)` (item size 3). -/
def pointsOf : List String → List (String × String × String)
  | a :: b :: c :: rest => (a, b, c) :: pointsOf rest
  | _ => []

/-- The PositionBuffer produced by the ASCII decoder, as 3-D points. -/
def asciiPoints (t : String) : List (String × String × String) :=
  pointsOf (parseASCIISTL t)

/-! Specification-side vocabulary for stating which texts the facet regex
accepts: a `\s+` gap accepts any nonempty run of whitespace, a number
token is any nonempty run of `[\d.\-e]` characters, and `render` builds a
facet block out of such pieces. -/

/-- A legitimate filler for a `\s+` gap: nonempty, all whitespace. -/
def wsOk (w : List Char) : Prop :=
  w ≠ [] ∧ ∀ c ∈ w, isJsSpace c = true

/-- A legitimate number token for `[\d.\-e]+`: nonempty, all class
characters. -/
def numOk (t : List Char) : Prop :=
  t ≠ [] ∧ ∀ c ∈ t, isNumChar c = true

instance wsOkDec (w : List Char) : Decidable (wsOk w) :=
  inferInstanceAs (Decidable (w ≠ [] ∧ ∀ c ∈ w, isJsSpace c = true))

instance numOkDec (t : List Char) : Decidable (numOk t) :=
  inferInstanceAs (Decidable (t ≠ [] ∧ ∀ c ∈ t, isNumChar c = true))

/-- Assemble the text a token pattern describes, plugging the given gap
fillers into the `\s` slots and the given number tokens into the `num`
slots, in order. -/
def render : List Tok → List (List Char) → List (List Char) → List Char
  | [], _, _ => []
  | .lit s :: ps, wl, nl => s ++ render ps wl nl
  | .ws :: ps, [], nl => render ps [] nl
  | .ws :: ps, w :: wl, nl => w ++ render ps wl nl
  | .num _ :: ps, wl, [] => render ps wl []
  | .num _ :: ps, wl, n :: nl => n ++ render ps wl nl

/-- Distribute a list of number tokens over a pattern's `num` slots,
sorting them into (uncaptured, captured) — the facet normals and the
vertex coordinates respectively. -/
def capSplit : List Tok → List (List Char) → List String × List String
  | [], _ => ([], [])
  | .lit _ :: ps, nl => capSplit ps nl
  | .ws :: ps, nl => capSplit ps nl
  | .num _ :: ps, [] => capSplit ps []
  | .num cap :: ps, n :: nl =>
    let r := capSplit ps nl
    if cap then (r.1, String.mk n :: r.2) else (String.mk n :: r.1, r.2)

/-- Number of `\s+` gaps in a pattern. -/
def wsCount : List Tok → Nat
  | [] => 0
  | .ws :: ps => wsCount ps + 1
  | _ :: ps => wsCount ps

/-- Number of number-token slots in a pattern. -/
def numCount : List Tok → Nat
  | [] => 0
  | .num _ :: ps => numCount ps + 1
  | _ :: ps => numCount ps

/-- Number of captured number-token slots in a pattern. -/
def capCount : List Tok → Nat
  | [] => 0
  | .num true :: ps => capCount ps + 1
  | _ :: ps => capCount ps

/-- Number of uncaptured number-token slots in a pattern. -/
def uncapCount : List Tok → Nat
  | [] => 0
  | .num false :: ps => uncapCount ps + 1
  | _ :: ps => uncapCount ps

/-- Well-formedness of a token pattern, sufficient for greedy matching to
be complete: every `\s+` gap is followed by a literal word starting with a
non-space character or by a number token, and every number token is
followed by a `\s+` gap (so maximal munch never eats a neighbour).
`facetPat` satisfies it. -/
def goodPat : List Tok → Bool
  | [] => true
  | .lit _ :: ps => goodPat ps
  | .ws :: .lit (c :: s) :: ps => !isJsSpace c && goodPat (.lit (c :: s) :: ps)
  | .ws :: .num b :: ps => goodPat (.num b :: ps)
  | .ws :: _ => false
  | .num _ :: .ws :: ps => goodPat (.ws :: ps)
  | .num _ :: _ => false

/-! ### Format detection and the load pipeline (`parseSTL`, `loadSTLFile`)

`loadSTLFile` always calls `reader.readAsArrayBuffer(file)` (both branches
of its final `if` are identical), so `parseSTL` receives an `ArrayBuffer`.
`parseSTL` classifies an `ArrayBuffer` as binary unconditionally
(`data instanceof ArrayBuffer`); any other byte-buffer-like input is
sniffed: the first 80 bytes are read one by one with `view.getUint8(i)`
(throwing a `RangeError` when the input is shorter than 80 bytes), turned
into characters with `String.fromCharCode`, trimmed, and tested with
`startsWith('solid')`. -/

/-- The two ways `parseSTL` can receive its input: an `ArrayBuffer`
(`data instanceof ArrayBuffer` is true) or some other byte-buffer-like
value holding the same bytes. -/
inductive RawInput where
  | typedBuf (bytes : List Nat)
  | untyped (bytes : List Nat)

/-- The byte contents of either input form. -/
def RawInput.bytes : RawInput → List Nat
  | .typedBuf bs => bs
  | .untyped bs => bs

/-- Classification result of the format detector. -/
inductive STLFormat where
  | binaryFmt
  | asciiFmt
deriving DecidableEq

/-- JS `String.trim()`: strip whitespace from both ends. -/
def trimJs (l : List Char) : List Char :=
  ((l.dropWhile isJsSpace).reverse.dropWhile isJsSpace).reverse

/-- The format-detection half of `parseSTL` (`App.jsx` lines 7–25):
an `ArrayBuffer` is binary unconditionally; otherwise the first 80 bytes
are read (a `RangeError`, modelled `none`, if fewer than 80 exist),
decoded as single-byte characters, trimmed, and the input is ASCII iff
the result starts with `solid`. -/
def detectFormat : RawInput → Option STLFormat
  | .typedBuf _ => some .binaryFmt
  | .untyped bs =>
    if bs.length < 80 then none
    else
      let headerStr := (bs.take 80).map Char.ofNat
      if "solid".data.isPrefixOf (trimJs headerStr) then some .asciiFmt
      else some .binaryFmt

/-- The decode errors that can escape the parsers: JS throws a
`RangeError` from an out-of-bounds `DataView`/`Uint8Array` access (the
spec's `TruncatedInput`). -/
inductive STLErr where
  | rangeError
deriving DecidableEq

/-- The decoded geometry handed to the viewer: a position buffer from one
of the two decoders (tagged by provenance; the source stores both as a
`THREE.BufferGeometry` position attribute). -/
inductive Geometry where
  | binaryGeo (pts : List Pt)
  | asciiGeo (coords : List String)
deriving DecidableEq

/-- Bytes-to-text for the ASCII path (`new TextDecoder().decode(data)`),
modelled as the byte-to-character map; exact UTF-8 multi-byte decoding is
immaterial to every claim, which only concern texts of single-byte
characters. -/
def strOfBytes (bs : List Nat) : String :=
  String.mk (bs.map Char.ofNat)

/-- Embedding of `parseSTL(data)` (`App.jsx` lines 7–34): detect the
format, then dispatch to `parseBinarySTL` or `parseASCIISTL`.  A thrown
`RangeError` — from the sniffing loop or from the binary decoder — is the
`Except.error` case; the ASCII decoder is total. -/
def parseSTL (d : RawInput) : Except STLErr Geometry :=
  match detectFormat d with
  | none => .error .rangeError
  | some .binaryFmt =>
    match parseBinarySTL d.bytes with
    | none => .error .rangeError
    | some pts => .ok (.binaryGeo pts)
  | some .asciiFmt => .ok (.asciiGeo (parseASCIISTL (strOfBytes d.bytes)))

/-- The state `loadSTLFile`'s reader callback updates: the installed mesh,
the camera-fit flag and the loading indicator. -/
structure LoadState where
  mesh : Option Geometry
  fitted : Bool
  loading : Bool
deriving DecidableEq

/-- Embedding of `loadSTLFile`'s `reader.onload` handler
(`App.jsx` lines 169–182): parse inside `try`; on success install the new
mesh, reset the fitted flag and stop loading; on any thrown error leave
the mesh untouched, surface an alert message, and stop loading.  The
returned `Option String` is the user-facing error message. -/
def loadSTLFile (s : LoadState) (contents : RawInput) : LoadState × Option String :=
  match parseSTL contents with
  | .ok g =>
    ({ mesh := some g, fitted := false, loading := false }, none)
  | .error _ =>
    ({ s with loading := false },
      some "Error parsing STL file. Please ensure it is a valid STL file.")

/-- JS `fname.toLowerCase().endsWith('.stl')`, over the name's character
sequence. -/
def hasStlSuffix (fname : String) : Bool :=
  ".stl".data.isSuffixOf (fname.data.map Char.toLower)

/-- The gate in `handleFileUpload` (`App.jsx` line 156): accept when the
declared type is `model/stl` or the lowercased name ends in `.stl`. -/
def acceptsFile (ftype fname : String) : Bool :=
  ftype == "model/stl" || hasStlSuffix fname

/-- How `loadSTLFile` reads the accepted file (`App.jsx` lines 190–194):
both branches of the `if` call `reader.readAsArrayBuffer(file)`, never
`readAsText`. -/
inductive ReadMode where
  | asArrayBuffer
  | asText
deriving DecidableEq

/-- The read-mode choice in `loadSTLFile`: the conditional is vacuous —
every file is read as an `ArrayBuffer`. -/
def chooseReadMode (fname : String) : ReadMode :=
  if hasStlSuffix fname then .asArrayBuffer else .asArrayBuffer

/-- The `FileReader` result handed to `parseSTL`: reading as an
`ArrayBuffer` produces a pre-typed binary buffer, reading as text would
produce an untyped value. -/
def readContents (fname : String) (bytes : List Nat) : RawInput :=
  match chooseReadMode fname with
  | .asArrayBuffer => .typedBuf bytes
  | .asText => .untyped bytes

/-- Specification-side description of the binary-only route: what
`parseSTL` does to a pre-typed buffer. -/
def binRoute (bytes : List Nat) : Except STLErr Geometry :=
  match parseBinarySTL bytes with
  | none => .error .rangeError
  | some pts => .ok (.binaryGeo pts)

/-! ### The camera-fit planner (`CameraController`)

`CameraController` (`App.jsx` lines 88–121) runs an effect that, when a
mesh is present and the `fitted` flag is false, computes the bounding box
of the mesh, derives a camera distance, position and look-at target, and
then schedules `setFitted(true)` through `setTimeout(…, 100)` — the flag
is *not* set synchronously.  Real arithmetic idealises the JS doubles. -/

/-- A 3-D vector of reals. -/
structure Vec3 where
  x : ℝ
  y : ℝ
  z : ℝ

/-- Componentwise sum (`THREE.Vector3.add`). -/
def vadd (a b : Vec3) : Vec3 := ⟨a.x + b.x, a.y + b.y, a.z + b.z⟩

/-- Componentwise difference (`THREE.Vector3.subVectors`, used by
`Box3.getSize`). -/
def vsub (a b : Vec3) : Vec3 := ⟨a.x - b.x, a.y - b.y, a.z - b.z⟩

/-- Scalar multiple (`THREE.Vector3.multiplyScalar`). -/
def vscale (r : ℝ) (v : Vec3) : Vec3 := ⟨r * v.x, r * v.y, r * v.z⟩

/-- Euclidean length (`THREE.Vector3.length`). -/
noncomputable def vlen (v : Vec3) : ℝ :=
  Real.sqrt (v.x ^ 2 + v.y ^ 2 + v.z ^ 2)

/-- `THREE.Vector3.normalize`: divide by the length, guarding length 0 by
dividing by 1 instead (`divideScalar(this.length() || 1)`). -/
noncomputable def vnormalize (v : Vec3) : Vec3 :=
  vscale (1 / (if vlen v = 0 then 1 else vlen v)) v

/-- The camera state the controller installs: position, look-at target,
and the derived distance. -/
structure CameraFitPlan where
  position : Vec3
  lookAt : Vec3
  distance : ℝ

/-- The fit computation of `CameraController`'s effect body
(`App.jsx` lines 94–113): `size = max - min`;
`maxDim = max(size.x, size.y, size.z)`; `distance = maxDim * 3`;
`center = (min + max) * 0.5` (`Box3.getCenter`);
`position = center + normalize(1,1,1) * distance`; `lookAt(center)`. -/
noncomputable def fitPlan (bmin bmax : Vec3) : CameraFitPlan :=
  let size := vsub bmax bmin
  let maxDim := max size.x (max size.y size.z)
  let distance := maxDim * 3
  let center := vscale (1 / 2) (vadd bmin bmax)
  let direction := vscale distance (vnormalize ⟨1, 1, 1⟩)
  { position := vadd center direction, lookAt := center, distance := distance }

/-- The controller/viewer state relevant to the fit-once protocol:
the rendered mesh's bounding extents (`none` before any load), the
`fitted` flag, the currently installed camera plan, the number of pending
`setTimeout(() => setFitted(true), 100)` callbacks, and a ghost counter of
how many times the plan has been computed (used only to state the
at-most-once claim). -/
structure CtrlState where
  mesh : Option (Vec3 × Vec3)
  fitted : Bool
  plan : Option CameraFitPlan
  pending : Nat
  computations : Nat

/-- One run of `CameraController`'s effect (`App.jsx` lines 91–118):
nothing happens without a mesh or when `fitted` is already true;
otherwise the plan is computed and installed on the camera and one
deferred `setFitted(true)` is scheduled (`setTimeout`, 100 ms) — the flag
itself does not change yet. -/
noncomputable def invokeController (s : CtrlState) : CtrlState :=
  match s.mesh with
  | none => s
  | some b =>
    if s.fitted then s
    else
      { s with
        plan := some (fitPlan b.1 b.2)
        pending := s.pending + 1
        computations := s.computations + 1 }

/-- A scheduled `setFitted(true)` callback fires. -/
def timerFire (s : CtrlState) : CtrlState :=
  match s.pending with
  | 0 => s
  | p + 1 => { s with fitted := true, pending := p }

/-- A new mesh finishes loading (`App.jsx` lines 174–175):
`setMesh(geometry); setFitted(false)`. -/
def loadMesh (b : Vec3 × Vec3) (s : CtrlState) : CtrlState :=
  { s with mesh := some b, fitted := false }

/-! ### Basic lemmas about the binary reads -/

theorem readF32LE_in_bounds (buf : List Nat) (off : Nat)
    (h : off + 4 ≤ buf.length) : readF32LE buf off = some (word32At buf off) := by
  simp [readF32LE, h]

theorem readF32LE_out_of_bounds (buf : List Nat) (off : Nat)
    (h : buf.length < off + 4) : readF32LE buf off = none := by
  simp [readF32LE]
  omega

theorem readVertex_in_bounds (buf : List Nat) (off : Nat)
    (h : off + 12 ≤ buf.length) : readVertex buf off = some (vertexAt buf off) := by
  rw [readVertex, readF32LE_in_bounds buf off (by omega),
    readF32LE_in_bounds buf (off + 4) (by omega),
    readF32LE_in_bounds buf (off + 8) (by omega)]
  rfl

theorem readVertex_out_of_bounds (buf : List Nat) (off : Nat)
    (h : buf.length < off + 12) : readVertex buf off = none := by
  rw [readVertex, readF32LE_out_of_bounds buf (off + 8) (by omega)]
  cases readF32LE buf off <;> cases readF32LE buf (off + 4) <;> rfl

theorem readTri_in_bounds (buf : List Nat) (off : Nat)
    (h : off + 48 ≤ buf.length) : readTri buf off = some (triPointsAt buf off) := by
  rw [readTri, readVertex_in_bounds buf (off + 12) (by omega),
    readVertex_in_bounds buf (off + 24) (by omega),
    readVertex_in_bounds buf (off + 36) (by omega)]
  rfl

theorem readTri_out_of_bounds (buf : List Nat) (off : Nat)
    (h : buf.length < off + 48) : readTri buf off = none := by
  rw [readTri, readVertex_out_of_bounds buf (off + 36) (by omega)]
  cases readVertex buf (off + 12) <;> cases readVertex buf (off + 24) <;> rfl

theorem flatMap_map_eq {α β γ : Type} (f : α → β) (g : β → List γ) (l : List α) :
    (l.map f).flatMap g = l.flatMap (fun a => g (f a)) := by
  induction l with
  | nil => rfl
  | cons a l ih => simp [ih]

theorem readTrisAux_complete (buf : List Nat) :
    ∀ (k i : Nat), 84 + (i + k) * 50 ≤ buf.length →
      readTrisAux buf i k =
        some ((List.range k).flatMap (fun m => triPointsAt buf (84 + (i + m) * 50))) := by
  intro k
  induction k with
  | zero => intro i _; simp [readTrisAux]
  | succ k ih =>
    intro i h
    have htri : readTri buf (84 + i * 50) = some (triPointsAt buf (84 + i * 50)) := by
      apply readTri_in_bounds
      have : (i + (k + 1)) * 50 = i * 50 + 50 * (k + 1) := by ring
      omega
    have hrest := ih (i + 1) (by
      have h1 : (i + 1 + k) * 50 = (i + (k + 1)) * 50 := by ring
      omega)
    rw [readTrisAux, htri, hrest]
    simp only [Option.bind_eq_bind, Option.some_bind]
    congr 1
    rw [List.range_succ_eq_map, List.flatMap_cons, flatMap_map_eq]
    have hfun : (fun m => triPointsAt buf (84 + (i + 1 + m) * 50))
        = fun m : Nat => triPointsAt buf (84 + (i + Nat.succ m) * 50) := by
      funext m
      congr 2
      omega
    rw [hfun]
    simp

theorem readTrisAux_truncated (buf : List Nat) :
    ∀ (k i : Nat), buf.length + 2 < 84 + (i + k + 1) * 50 →
      readTrisAux buf i (k + 1) = none := by
  intro k
  induction k with
  | zero =>
    intro i h
    have : readTri buf (84 + i * 50) = none := by
      apply readTri_out_of_bounds
      have : (i + 0 + 1) * 50 = i * 50 + 50 := by ring
      omega
    rw [readTrisAux, this]
    rfl
  | succ k ih =>
    intro i h
    rw [readTrisAux]
    cases htri : readTri buf (84 + i * 50) with
    | none => rfl
    | some t =>
      have : readTrisAux buf (i + 1) (k + 1) = none := by
        apply ih
        have h1 : (i + 1 + k + 1) * 50 = (i + (k + 1) + 1) * 50 := by ring
        omega
      rw [this]
      rfl

/-! ### Claims C1 and C2: the binary decoder -/

theorem binExpected_length (buf : List Nat) : ∀ n, (binExpected buf n).length = 3 * n := by
  intro n
  induction n with
  | zero => rfl
  | succ k ih =>
    rw [binExpected, List.range_succ, List.flatMap_append]
    rw [binExpected] at ih
    simp only [List.length_append, ih]
    simp [triPointsAt]
    omega

/-- C1.  For every binary STL input whose buffer length is at least
`84 + 50*N`, where `N` is the unsigned 32-bit little-endian triangle count
read at byte offset 80, the binary decoder produces a PositionBuffer of
exactly `3*N` points, in triangle order then within-triangle vertex order,
each coordinate read as a little-endian 32-bit float from the 50-byte
record at offset `84 + i*50` with the 12-byte stored normal at record
offsets 0–11 skipped (vertex `v`, coordinate `j` comes from byte offset
`84 + i*50 + 12 + v*12 + j*4`). -/
theorem binary_decode_complete (buf : List Nat) (n : Nat)
    (hn : readU32LE buf 80 = some n) (hlen : 84 + 50 * n ≤ buf.length) :
    parseBinarySTL buf = some (binExpected buf n) ∧
      (binExpected buf n).length = 3 * n := by
  constructor
  · have h80 : ¬ buf.length < 80 := by omega
    rw [parseBinarySTL, if_neg h80, hn, binExpected]
    have := readTrisAux_complete buf n 0 (by omega)
    simpa using this
  · exact binExpected_length buf n

set_option maxRecDepth 100000 in
/-- Witness for `binary_decode_complete`: a buffer declaring 1 triangle,
backed by exactly `84 + 50 = 134` bytes, decodes to 3 points. -/
theorem binary_decode_complete_witness :
    (readU32LE (List.replicate 80 0 ++ [1, 0, 0, 0] ++ List.range 50) 80 = some 1 ∧
      84 + 50 * 1 ≤ (List.replicate 80 0 ++ [1, 0, 0, 0] ++ List.range 50).length) ∧
    (parseBinarySTL (List.replicate 80 0 ++ [1, 0, 0, 0] ++ List.range 50) =
        some (binExpected (List.replicate 80 0 ++ [1, 0, 0, 0] ++ List.range 50) 1) ∧
      (binExpected (List.replicate 80 0 ++ [1, 0, 0, 0] ++ List.range 50) 1).length = 3 * 1) :=
  ⟨⟨by decide, by decide⟩,
    binary_decode_complete (List.replicate 80 0 ++ [1, 0, 0, 0] ++ List.range 50) 1
      (by decide) (by decide)⟩

/-- C2 (amended).  For every binary STL input whose buffer is shorter than
`84 + 50*N - 2` bytes, where `N` is the triangle count declared at byte
offset 80, decoding fails (the embedded bounds-checked read yields `none`,
modelling the thrown `RangeError`); no data is fabricated.  The bound is
`84 + 50*N - 2`, not the claimed `84 + 50*N`: the decoder never reads the
final record's 2-byte attribute count, so a buffer 1 or 2 bytes shorter
than `84 + 50*N` still decodes successfully
(see `binary_truncation_claim_counterexample`). -/
theorem binary_decode_truncated (buf : List Nat) (n : Nat)
    (hn : readU32LE buf 80 = some n) (hshort : buf.length + 2 < 84 + 50 * n) :
    parseBinarySTL buf = none := by
  have hlen : 84 ≤ buf.length := by
    by_contra hc
    rw [readU32LE, if_neg (by omega)] at hn
    exact Option.noConfusion hn
  have hn1 : 1 ≤ n := by
    rcases Nat.eq_zero_or_pos n with h0 | h1
    · omega
    · exact h1
  obtain ⟨k, rfl⟩ : ∃ k, n = k + 1 := ⟨n - 1, by omega⟩
  rw [parseBinarySTL, if_neg (by omega), hn]
  exact readTrisAux_truncated buf k 0 (by omega)

set_option maxRecDepth 100000 in
/-- Witness for `binary_decode_truncated`, following the spec's own
scenario: a header declaring 2 triangles backed by only a 100-byte buffer
fails to decode. -/
theorem binary_decode_truncated_witness :
    (readU32LE (List.replicate 80 0 ++ [2, 0, 0, 0] ++ List.replicate 16 7) 80 = some 2 ∧
      (List.replicate 80 0 ++ [2, 0, 0, 0] ++ List.replicate 16 7).length + 2 < 84 + 50 * 2) ∧
    parseBinarySTL (List.replicate 80 0 ++ [2, 0, 0, 0] ++ List.replicate 16 7) = none :=
  ⟨⟨by decide, by decide⟩,
    binary_decode_truncated (List.replicate 80 0 ++ [2, 0, 0, 0] ++ List.replicate 16 7) 2
      (by decide) (by decide)⟩

set_option maxRecDepth 100000 in
/-- Counterexample to C2 as stated.  C2 claims that a buffer shorter than
`84 + 50*N` bytes always fails to decode.  This buffer declares `N = 1`
triangle but holds only `132 = 84 + 50 - 2` bytes — strictly shorter than
`84 + 50*1 = 134` — yet the decoder succeeds and returns 3 points, because
`parseBinarySTL` never reads the last record's 2-byte attribute count
(its final read covers bytes 128–131). -/
theorem binary_truncation_claim_counterexample :
    readU32LE (List.replicate 80 0 ++ [1, 0, 0, 0] ++ List.replicate 48 0) 80 = some 1 ∧
    (List.replicate 80 0 ++ [1, 0, 0, 0] ++ List.replicate 48 0).length < 84 + 50 * 1 ∧
    parseBinarySTL (List.replicate 80 0 ++ [1, 0, 0, 0] ++ List.replicate 48 0) =
      some [(0, 0, 0), (0, 0, 0), (0, 0, 0)] :=
  ⟨by decide, by decide, by decide⟩

/-! ### Lemmas about the ASCII matcher -/

theorem num_not_space {c : Char} (h : isNumChar c = true) : isJsSpace c = false := by
  cases hs : isJsSpace c
  · rfl
  · exfalso
    have hs' := hs
    simp only [isJsSpace, Bool.or_eq_true, beq_iff_eq, or_assoc] at hs'
    rcases hs' with h1 | h1 | h1 | h1 | h1 | h1 | h1 <;>
      (subst h1; exact absurd h (by decide))

theorem space_not_num {c : Char} (h : isJsSpace c = true) : isNumChar c = false := by
  simp only [isJsSpace, Bool.or_eq_true, beq_iff_eq, or_assoc] at h
  rcases h with h1 | h1 | h1 | h1 | h1 | h1 | h1 <;> (subst h1; decide)

theorem dropWhile_all_append {p : Char → Bool} (w r : List Char)
    (hw : ∀ c ∈ w, p c = true) : (w ++ r).dropWhile p = r.dropWhile p := by
  induction w with
  | nil => rfl
  | cons c w ih =>
    have hc := hw c (List.mem_cons_self c w)
    simp only [List.cons_append, List.dropWhile_cons, hc, if_true]
    exact ih (fun x hx => hw x (List.mem_cons_of_mem c hx))

theorem dropWhile_head_false {p : Char → Bool} (c : Char) (r : List Char)
    (hc : p c = false) : (c :: r).dropWhile p = c :: r := by
  simp [List.dropWhile_cons, hc]

theorem takeWhile_all_append {p : Char → Bool} (w r : List Char)
    (hw : ∀ c ∈ w, p c = true) : (w ++ r).takeWhile p = w ++ r.takeWhile p := by
  induction w with
  | nil => rfl
  | cons c w ih =>
    have hc := hw c (List.mem_cons_self c w)
    simp only [List.cons_append, List.takeWhile_cons, hc, if_true]
    rw [ih (fun x hx => hw x (List.mem_cons_of_mem c hx))]

theorem takeWhile_head_false {p : Char → Bool} (c : Char) (r : List Char)
    (hc : p c = false) : (c :: r).takeWhile p = [] := by
  simp [List.takeWhile_cons, hc]

theorem eatLit_append (s r : List Char) : eatLit s (s ++ r) = some r := by
  induction s with
  | nil => rfl
  | cons c s ih => simp [eatLit, ih]

theorem dropWs1_append (w r : List Char) (hw : wsOk w)
    (hr : r.dropWhile isJsSpace = r) : dropWs1 (w ++ r) = some r := by
  obtain ⟨hne, hall⟩ := hw
  cases w with
  | nil => exact absurd rfl hne
  | cons c w' =>
    have hc := hall c (List.mem_cons_self c w')
    simp only [List.cons_append, dropWs1, hc, if_true]
    rw [dropWhile_all_append w' r (fun x hx => hall x (List.mem_cons_of_mem c hx)), hr]

theorem takeNum1_append (t r : List Char) (ht : numOk t)
    (hr1 : r.takeWhile isNumChar = []) (hr2 : r.dropWhile isNumChar = r) :
    takeNum1 (t ++ r) = some (t, r) := by
  obtain ⟨hne, hall⟩ := ht
  cases t with
  | nil => exact absurd rfl hne
  | cons c t' =>
    have hc := hall c (List.mem_cons_self c t')
    simp only [List.cons_append, takeNum1, hc, if_true]
    rw [takeWhile_all_append t' r (fun x hx => hall x (List.mem_cons_of_mem c hx)),
      dropWhile_all_append t' r (fun x hx => hall x (List.mem_cons_of_mem c hx)), hr1, hr2]
    simp

theorem runPat_num_some (cap : Bool) (ps : List Tok) (l t r : List Char)
    (h : takeNum1 l = some (t, r)) :
    runPat (Tok.num cap :: ps) l =
      match runPat ps r with
      | none => none
      | some (ns, vs, rest) =>
        if cap then some (ns, String.mk t :: vs, rest)
        else some (String.mk t :: ns, vs, rest) := by
  simp only [runPat, h]

/-- Completeness of greedy matching for well-formed patterns: a text
assembled from the pattern's literals, arbitrary valid gap fillers and
arbitrary valid number tokens — followed by anything at all — is matched,
consuming exactly the assembled part and capturing exactly the plugged-in
number tokens. -/
theorem runPat_render :
    ∀ (ps : List Tok) (wl nl : List (List Char)) (rest : List Char),
      goodPat ps = true →
      wl.length = wsCount ps → nl.length = numCount ps →
      (∀ w ∈ wl, wsOk w) → (∀ t ∈ nl, numOk t) →
      runPat ps (render ps wl nl ++ rest) =
        some ((capSplit ps nl).1, (capSplit ps nl).2, rest) := by
  intro ps
  induction ps with
  | nil =>
    intro wl nl rest _ _ _ _ _
    simp [runPat, render, capSplit]
  | cons tok ps ih =>
    intro wl nl rest hg hwl hnl hws hnum
    cases tok with
    | lit s =>
      have hg' : goodPat ps = true := hg
      have he := eatLit_append s (render ps wl nl ++ rest)
      have hr : render (Tok.lit s :: ps) wl nl ++ rest =
          s ++ (render ps wl nl ++ rest) := by
        simp [render, List.append_assoc]
      rw [hr]
      simp only [runPat, he]
      exact ih wl nl rest hg' hwl hnl hws hnum
    | ws =>
      cases wl with
      | nil => simp [wsCount] at hwl
      | cons w wl' =>
        have hwOk : wsOk w := hws w (List.mem_cons_self w wl')
        have hws' : ∀ x ∈ wl', wsOk x := fun x hx => hws x (List.mem_cons_of_mem w hx)
        have hwl' : wl'.length = wsCount ps := by
          have : wl'.length + 1 = wsCount ps + 1 := hwl
          omega
        have hr : render (Tok.ws :: ps) (w :: wl') nl ++ rest =
            w ++ (render ps wl' nl ++ rest) := by
          simp [render, List.append_assoc]
        rw [hr]
        cases ps with
        | nil => simp [goodPat] at hg
        | cons tok2 ps' =>
          cases tok2 with
          | lit s2 =>
            cases s2 with
            | nil => simp [goodPat] at hg
            | cons c s2' =>
              have hgc : isJsSpace c = false ∧ goodPat (Tok.lit (c :: s2') :: ps') = true := by
                have := hg
                simp only [goodPat, Bool.and_eq_true, Bool.not_eq_eq_eq_not,
                  Bool.not_true] at this
                exact ⟨by simpa using this.1, this.2⟩
              have hhead : render (Tok.lit (c :: s2') :: ps') wl' nl ++ rest =
                  c :: (s2' ++ render ps' wl' nl ++ rest) := by
                simp [render, List.append_assoc]
              have hstable : (render (Tok.lit (c :: s2') :: ps') wl' nl ++
                  rest).dropWhile isJsSpace =
                  render (Tok.lit (c :: s2') :: ps') wl' nl ++ rest := by
                rw [hhead]
                exact dropWhile_head_false c _ hgc.1
              have hdrop := dropWs1_append w _ hwOk hstable
              simp only [runPat, hdrop]
              exact ih wl' nl rest hgc.2 hwl' hnl hws' hnum
          | ws => simp [goodPat] at hg
          | num b =>
            have hg' : goodPat (Tok.num b :: ps') = true := hg
            have hnlen : nl.length = numCount (Tok.num b :: ps') := hnl
            cases nl with
            | nil => simp [numCount] at hnlen
            | cons n nl' =>
              have hnOk : numOk n := hnum n (List.mem_cons_self n nl')
              obtain ⟨hne, hall⟩ := hnOk
              cases n with
              | nil => exact absurd rfl hne
              | cons nc n' =>
                have hnc : isNumChar nc = true := hall nc (List.mem_cons_self nc n')
                have hhead2 : render (Tok.num b :: ps') wl' ((nc :: n') :: nl') ++ rest =
                    nc :: (n' ++ render ps' wl' nl' ++ rest) := by
                  simp [render, List.append_assoc]
                have hstable : (render (Tok.num b :: ps') wl' ((nc :: n') :: nl') ++
                    rest).dropWhile isJsSpace =
                    render (Tok.num b :: ps') wl' ((nc :: n') :: nl') ++ rest := by
                  rw [hhead2]
                  exact dropWhile_head_false nc _ (num_not_space hnc)
                have hdrop := dropWs1_append w _ hwOk hstable
                simp only [runPat, hdrop]
                exact ih wl' ((nc :: n') :: nl') rest hg' hwl' hnl hws' hnum
    | num cap =>
      cases ps with
      | nil => simp [goodPat] at hg
      | cons tok2 ps' =>
        cases tok2 with
        | lit s2 => simp [goodPat] at hg
        | num b2 => simp [goodPat] at hg
        | ws =>
          have hg' : goodPat (Tok.ws :: ps') = true := hg
          cases nl with
          | nil => simp [numCount] at hnl
          | cons n nl' =>
            have hnl' : nl'.length = numCount (Tok.ws :: ps') := by
              have : nl'.length + 1 = numCount (Tok.ws :: ps') + 1 := hnl
              omega
            have hnOk : numOk n := hnum n (List.mem_cons_self n nl')
            have hnum' : ∀ x ∈ nl', numOk x := fun x hx => hnum x (List.mem_cons_of_mem n hx)
            cases wl with
            | nil => simp [wsCount] at hwl
            | cons w wl' =>
              have hwOk : wsOk w := hws w (List.mem_cons_self w wl')
              obtain ⟨hwne, hwall⟩ := hwOk
              cases w with
              | nil => exact absurd rfl hwne
              | cons wc w' =>
                have hwc : isJsSpace wc = true := hwall wc (List.mem_cons_self wc w')
                have hr2 : render (Tok.num cap :: Tok.ws :: ps') ((wc :: w') :: wl')
                    (n :: nl') ++ rest =
                    n ++ (render (Tok.ws :: ps') ((wc :: w') :: wl') nl' ++ rest) := by
                  simp [render, List.append_assoc]
                have hhead : render (Tok.ws :: ps') ((wc :: w') :: wl') nl' ++ rest =
                    wc :: (w' ++ render ps' wl' nl' ++ rest) := by
                  simp [render, List.append_assoc]
                have htake1 : (render (Tok.ws :: ps') ((wc :: w') :: wl') nl' ++
                    rest).takeWhile isNumChar = [] := by
                  rw [hhead]
                  exact takeWhile_head_false wc _ (space_not_num hwc)
                have htake2 : (render (Tok.ws :: ps') ((wc :: w') :: wl') nl' ++
                    rest).dropWhile isNumChar =
                    render (Tok.ws :: ps') ((wc :: w') :: wl') nl' ++ rest := by
                  rw [hhead]
                  exact dropWhile_head_false wc _ (space_not_num hwc)
                have htn := takeNum1_append n _ hnOk htake1 htake2
                have hrun := ih ((wc :: w') :: wl') nl' rest hg' hwl hnl' hws hnum'
                rw [hr2, runPat_num_some cap (Tok.ws :: ps') _ n _ htn, hrun]
                cases cap with
                | false => simp [capSplit]
                | true => simp [capSplit]

/-- Any successful match captures exactly `capCount` tokens and leaves
`uncapCount` uncaptured tokens, whatever the input text. -/
theorem runPat_lengths :
    ∀ (ps : List Tok) (l : List Char) (ns vs : List String) (r : List Char),
      runPat ps l = some (ns, vs, r) →
      ns.length = uncapCount ps ∧ vs.length = capCount ps := by
  intro ps
  induction ps with
  | nil =>
    intro l ns vs r h
    simp only [runPat, Option.some.injEq, Prod.mk.injEq] at h
    obtain ⟨h1, h2, _⟩ := h
    subst h1; subst h2
    exact ⟨rfl, rfl⟩
  | cons tok ps ih =>
    intro l ns vs r h
    cases tok with
    | lit s =>
      simp only [runPat] at h
      split at h
      · exact absurd h (by simp)
      · exact ih _ ns vs r h
    | ws =>
      simp only [runPat] at h
      split at h
      · exact absurd h (by simp)
      · exact ih _ ns vs r h
    | num cap =>
      simp only [runPat] at h
      split at h
      · exact absurd h (by simp)
      · rename_i t r' ht
        split at h
        · exact absurd h (by simp)
        · rename_i ns' vs' rr hrp
          have hl := ih _ ns' vs' rr hrp
          cases cap with
          | false =>
            simp only [Bool.false_eq_true, if_false, Option.some.injEq,
              Prod.mk.injEq] at h
            obtain ⟨h1, h2, _⟩ := h
            subst h1; subst h2
            constructor
            · simp [uncapCount, hl.1]
            · simp [capCount, hl.2]
          | true =>
            simp only [if_true, Option.some.injEq, Prod.mk.injEq] at h
            obtain ⟨h1, h2, _⟩ := h
            subst h1; subst h2
            constructor
            · simp [uncapCount, hl.1]
            · simp [capCount, hl.2]

/-- Every match the scan loop emits has 3 facet-normal tokens and 9
captured vertex-coordinate tokens. -/
theorem scanFacetsF_mem :
    ∀ (fuel : Nat) (l : List Char) (m : List String × List String),
      m ∈ scanFacetsF fuel l → m.1.length = 3 ∧ m.2.length = 9 := by
  intro fuel
  induction fuel with
  | zero =>
    intro l m hm
    simp [scanFacetsF] at hm
  | succ fuel ih =>
    intro l m hm
    cases l with
    | nil => simp [scanFacetsF] at hm
    | cons c cs =>
      simp only [scanFacetsF] at hm
      split at hm
      · rename_i ns vs r hmatch
        rcases List.mem_cons.mp hm with rfl | hm'
        · have hlen := runPat_lengths facetPat (c :: cs) ns vs r hmatch
          have hu : uncapCount facetPat = 3 := rfl
          have hc : capCount facetPat = 9 := rfl
          rw [hu] at hlen
          rw [hc] at hlen
          exact hlen
        · exact ih r m hm'
      · exact ih cs m hm

theorem foldl_push_eq_flatMap {α β : Type} (f : α → List β) :
    ∀ (l : List α) (acc : List β),
      l.foldl (fun a m => a ++ f m) acc = acc ++ l.flatMap f := by
  intro l
  induction l with
  | nil => intro acc; simp
  | cons x l ih => intro acc; simp [ih, List.append_assoc]

theorem exists_nine (vs : List String) (h : vs.length = 9) :
    ∃ a b c d e f g h1 i, vs = [a, b, c, d, e, f, g, h1, i] := by
  rcases vs with _ | ⟨a, vs⟩
  · simp at h
  rcases vs with _ | ⟨b, vs⟩
  · simp at h
  rcases vs with _ | ⟨c, vs⟩
  · simp at h
  rcases vs with _ | ⟨d, vs⟩
  · simp at h
  rcases vs with _ | ⟨e, vs⟩
  · simp at h
  rcases vs with _ | ⟨f, vs⟩
  · simp at h
  rcases vs with _ | ⟨g, vs⟩
  · simp at h
  rcases vs with _ | ⟨h1, vs⟩
  · simp at h
  rcases vs with _ | ⟨i, vs⟩
  · simp at h
  rcases vs with _ | ⟨j, vs⟩
  · exact ⟨a, b, c, d, e, f, g, h1, i, rfl⟩
  · simp at h

theorem pointsOf_flatMap (ms : List (List String × List String))
    (h : ∀ m ∈ ms, m.2.length = 9) :
    pointsOf (ms.flatMap (fun m => m.2)) = ms.flatMap (fun m => pointsOf m.2) ∧
      (ms.flatMap (fun m => pointsOf m.2)).length = 3 * ms.length := by
  induction ms with
  | nil => simp [pointsOf]
  | cons m ms ih =>
    have h9 := h m (List.mem_cons_self m ms)
    obtain ⟨a, b, c, d, e, f, g, h1, i, heq⟩ := exists_nine m.2 h9
    have ih' := ih (fun x hx => h x (List.mem_cons_of_mem m hx))
    have key : ∀ rest : List String,
        pointsOf ([a, b, c, d, e, f, g, h1, i] ++ rest) =
          [(a, b, c), (d, e, f), (g, h1, i)] ++ pointsOf rest := fun rest => rfl
    constructor
    · rw [List.flatMap_cons, List.flatMap_cons, heq, key, ih'.1]
      rfl
    · rw [List.flatMap_cons, heq]
      simp only [List.length_append, List.length_cons, ih'.2, key]
      simp [pointsOf]
      ring

/-- C3.  For every ASCII STL text, the decoder's PositionBuffer is exactly
the concatenation, in document order, of the nine captured coordinate
literals of each regex match (`asciiMatches`); grouped into points, each
matched facet contributes exactly its 3 points in textual order, so the
buffer holds `3 × (number of matches)` points.  The facet-normal tokens
(`m.1`) appear nowhere in the output. -/
theorem ascii_decode_structure (t : String) :
    parseASCIISTL t = (asciiMatches t).flatMap (fun m => m.2) ∧
      asciiPoints t = (asciiMatches t).flatMap (fun m => pointsOf m.2) ∧
      (asciiPoints t).length = 3 * (asciiMatches t).length := by
  have hflat : parseASCIISTL t = (asciiMatches t).flatMap (fun m => m.2) := by
    rw [parseASCIISTL, foldl_push_eq_flatMap]
    simp
  have hmem : ∀ m ∈ asciiMatches t, m.2.length = 9 := by
    intro m hm
    exact (scanFacetsF_mem t.data.length t.data m hm).2
  have hp := pointsOf_flatMap (asciiMatches t) hmem
  refine ⟨hflat, ?_, ?_⟩
  · rw [asciiPoints, hflat, hp.1]
  · rw [asciiPoints, hflat, hp.1, hp.2]

/-- C5.  For every ASCII STL text in which zero facet blocks match the
grammar, the decoder returns an empty PositionBuffer and does not raise an
error (it is a total function by construction — malformed or partial
facets are skipped by the scan loop, never reported). -/
theorem ascii_empty_on_no_match (t : String) (h : asciiMatches t = []) :
    parseASCIISTL t = [] ∧ asciiPoints t = [] := by
  constructor
  · rw [parseASCIISTL, h]
    rfl
  · rw [asciiPoints, parseASCIISTL, h]
    rfl

set_option maxRecDepth 100000 in
/-- Witness for `ascii_empty_on_no_match`: the spec's own scenario, a text
with no `facet` keyword at all. -/
theorem ascii_empty_on_no_match_witness :
    asciiMatches "solid empty endsolid" = [] ∧
      parseASCIISTL "solid empty endsolid" = [] ∧
      asciiPoints "solid empty endsolid" = [] :=
  ⟨by decide,
    (ascii_empty_on_no_match "solid empty endsolid" (by decide)).1,
    (ascii_empty_on_no_match "solid empty endsolid" (by decide)).2⟩

theorem scanFacetsF_nil : ∀ fuel : Nat, scanFacetsF fuel [] = [] := by
  intro fuel
  cases fuel with
  | zero => rfl
  | succ f => rfl

/-- C4 (amended).  The ASCII decoder matches exactly the facet blocks
written with lowercase keywords, with at least one whitespace character —
in any amount and kind — between consecutive tokens, and with numeric
literals drawn from the character class `[0-9.\-e]` (so an optional
leading `-` and a lowercase-`e` exponent are representable, but a leading
or exponent `+` sign and uppercase letters are not: the regex has no `i`
flag and its class contains neither `+` nor `E` —
see `ascii_grammar_claim_counterexample`).  Stated ASCII-decoder-side: a
block assembled from any 20 valid whitespace gaps and 12 valid number
tokens is matched in full, capturing the nine vertex coordinates. -/
theorem ascii_grammar_amended (wl nl : List (List Char))
    (hwl : wl.length = 20) (hnl : nl.length = 12)
    (hws : ∀ w ∈ wl, wsOk w) (hnum : ∀ t ∈ nl, numOk t) :
    asciiMatches (String.mk (render facetPat wl nl)) =
      [((capSplit facetPat nl).1, (capSplit facetPat nl).2)] ∧
      parseASCIISTL (String.mk (render facetPat wl nl)) = (capSplit facetPat nl).2 := by
  have hg : goodPat facetPat = true := by decide
  have hrun := runPat_render facetPat wl nl [] hg
    (by rw [hwl]; rfl) (by rw [hnl]; rfl) hws hnum
  rw [List.append_nil] at hrun
  have hmatches : asciiMatches (String.mk (render facetPat wl nl)) =
      [((capSplit facetPat nl).1, (capSplit facetPat nl).2)] := by
    rcases hr : render facetPat wl nl with _ | ⟨c, cs⟩
    · rw [hr] at hrun
      rw [show runPat facetPat [] = none from rfl] at hrun
      exact Option.noConfusion hrun
    · have hmatch : matchFacetAt (c :: cs) =
          some ((capSplit facetPat nl).1, (capSplit facetPat nl).2, []) := by
        rw [matchFacetAt, ← hr]
        exact hrun
      rw [asciiMatches]
      simp only [List.length_cons, scanFacetsF, hmatch, scanFacetsF_nil]
  refine ⟨hmatches, ?_⟩
  rw [parseASCIISTL, hmatches]
  simp

set_option maxRecDepth 100000 in
/-- Witness for `ascii_grammar_amended`: single-space gaps and twelve
concrete class tokens (including a negative number and lowercase-`e`
exponents) assemble into a block that is matched, capturing the nine
vertex coordinate literals. -/
theorem ascii_grammar_amended_witness :
    ((List.replicate 20 [' ']).length = 20 ∧
      ([['0'], ['0'], ['0'], ['1', '.', '5'], ['-', '2'], ['3', 'e', '2'], ['0'], ['1'],
        ['0'], ['-', '0', '.', '5'], ['2'], ['1', 'e', '-', '3']] :
          List (List Char)).length = 12) ∧
    parseASCIISTL (String.mk (render facetPat (List.replicate 20 [' '])
        [['0'], ['0'], ['0'], ['1', '.', '5'], ['-', '2'], ['3', 'e', '2'], ['0'], ['1'],
          ['0'], ['-', '0', '.', '5'], ['2'], ['1', 'e', '-', '3']])) =
      (capSplit facetPat
        [['0'], ['0'], ['0'], ['1', '.', '5'], ['-', '2'], ['3', 'e', '2'], ['0'], ['1'],
          ['0'], ['-', '0', '.', '5'], ['2'], ['1', 'e', '-', '3']]).2 :=
  ⟨⟨by decide, by decide⟩,
    (ascii_grammar_amended (List.replicate 20 [' '])
      [['0'], ['0'], ['0'], ['1', '.', '5'], ['-', '2'], ['3', 'e', '2'], ['0'], ['1'],
        ['0'], ['-', '0', '.', '5'], ['2'], ['1', 'e', '-', '3']]
      (by decide) (by decide) (by decide) (by decide)).2⟩

set_option maxRecDepth 1000000 in
/-- Counterexample to C4 as stated.  C4 claims the decoder matches facet
blocks regardless of token letter case and accepts numeric literals with
a signed exponent such as `1.0e+5`.  Both parts fail on the code: a
well-formed block whose only deviation is the literal `1.0e+5` yields no
match (the regex class `[\d.\-e]` has no `+`), and an uppercase block
yields no match (the regex has no `i` flag). -/
theorem ascii_grammar_claim_counterexample :
    asciiMatches
        "facet normal 0 0 0 outer loop vertex 1.0e+5 0 0 vertex 0 1 0 vertex 0 0 1 endloop endfacet" = [] ∧
      parseASCIISTL
        "facet normal 0 0 0 outer loop vertex 1.0e+5 0 0 vertex 0 1 0 vertex 0 0 1 endloop endfacet" = [] ∧
      asciiMatches
        "FACET NORMAL 0 0 0 OUTER LOOP VERTEX 1 2 3 VERTEX 4 5 6 VERTEX 7 8 9 ENDLOOP ENDFACET" = [] ∧
      parseASCIISTL
        "FACET NORMAL 0 0 0 OUTER LOOP VERTEX 1 2 3 VERTEX 4 5 6 VERTEX 7 8 9 ENDLOOP ENDFACET" = [] :=
  ⟨by decide, by decide, by decide, by decide⟩

/-! ### Claims C6–C10: detector, camera fit, load pipeline -/

/-- C6 (amended).  The format detector classifies a pre-typed binary
buffer as binary unconditionally.  An untyped input with at least 80
bytes is classified ASCII iff its first 80 bytes, decoded as single-byte
characters and trimmed, start with `solid`, and binary otherwise; but an
untyped input with fewer than 80 bytes is not classified at all — the
80-iteration `getUint8` sniffing loop throws a `RangeError`
(see `detect_format_claim_counterexample`). -/
theorem detect_format_amended :
    (∀ bs : List Nat, detectFormat (.typedBuf bs) = some .binaryFmt) ∧
    (∀ bs : List Nat, 80 ≤ bs.length →
      (detectFormat (.untyped bs) = some .asciiFmt ↔
        "solid".data.isPrefixOf (trimJs ((bs.take 80).map Char.ofNat)) = true)) ∧
    (∀ bs : List Nat, bs.length < 80 → detectFormat (.untyped bs) = none) := by
  refine ⟨fun bs => rfl, fun bs h => ?_, fun bs h => ?_⟩
  · simp only [detectFormat]
    rw [if_neg (by omega)]
    by_cases hp : "solid".data.isPrefixOf (trimJs ((bs.take 80).map Char.ofNat)) = true
    · simp [hp]
    · simp [hp]
  · simp [detectFormat, h]

set_option maxRecDepth 100000 in
/-- Witness for `detect_format_amended` at concrete inputs: an empty
pre-typed buffer is binary; an 80-byte untyped header reading
`solid` followed by spaces is ASCII; an empty untyped input is
unclassified (error). -/
theorem detect_format_amended_witness :
    detectFormat (.typedBuf []) = some .binaryFmt ∧
      detectFormat (.untyped ([115, 111, 108, 105, 100] ++ List.replicate 75 32)) =
        some .asciiFmt ∧
      detectFormat (.untyped []) = none :=
  ⟨detect_format_amended.1 [],
    (detect_format_amended.2.1 ([115, 111, 108, 105, 100] ++ List.replicate 75 32)
      (by decide)).mpr (by decide),
    detect_format_amended.2.2 [] (by decide)⟩

set_option maxRecDepth 100000 in
/-- Counterexample to C6 as stated.  C6 claims every non-pre-typed input
is classified ASCII iff its first 80 bytes, trimmed, begin with `solid`.
The 5-byte untyped input `solid` begins with `solid` after trimming, yet
the detector classifies it neither ASCII nor binary: the sniffing loop
reads 80 bytes unconditionally and throws on the 6th. -/
theorem detect_format_claim_counterexample :
    detectFormat (.untyped [115, 111, 108, 105, 100]) = none ∧
      "solid".data.isPrefixOf
        (trimJs (([115, 111, 108, 105, 100] : List Nat).map Char.ofNat)) = true :=
  ⟨by decide, by decide⟩

/-- C7.  For every non-empty bounding volume with extents `min` and
`max`, the camera fit planner computes `distance = maxDim * k` with
`maxDim = max(size.x, size.y, size.z)`, `size = max - min`, for the fixed
constant `k = 3` (within the claimed range 2.5–3); it sets the look-at
target to the center `(min + max) / 2` and the camera position to
`center + normalize(1,1,1) * distance`, i.e. each position component is
the center component plus `distance / √3`. -/
theorem camera_fit_formulas (bmin bmax : Vec3)
    (h : bmin.x ≤ bmax.x ∧ bmin.y ≤ bmax.y ∧ bmin.z ≤ bmax.z) :
    ∃ k : ℝ, 5 / 2 ≤ k ∧ k ≤ 3 ∧
      (fitPlan bmin bmax).distance =
        max (bmax.x - bmin.x) (max (bmax.y - bmin.y) (bmax.z - bmin.z)) * k ∧
      (fitPlan bmin bmax).lookAt =
        ⟨(bmin.x + bmax.x) / 2, (bmin.y + bmax.y) / 2, (bmin.z + bmax.z) / 2⟩ ∧
      (fitPlan bmin bmax).position =
        ⟨(bmin.x + bmax.x) / 2 + (fitPlan bmin bmax).distance / Real.sqrt 3,
          (bmin.y + bmax.y) / 2 + (fitPlan bmin bmax).distance / Real.sqrt 3,
          (bmin.z + bmax.z) / 2 + (fitPlan bmin bmax).distance / Real.sqrt 3⟩ := by
  have hlen : vlen ⟨1, 1, 1⟩ = Real.sqrt 3 := by
    rw [vlen]
    norm_num
  have hne : Real.sqrt 3 ≠ 0 := Real.sqrt_ne_zero'.mpr (by norm_num)
  refine ⟨3, by norm_num, le_refl 3, ?_, ?_, ?_⟩
  · simp only [fitPlan, vsub]
  · simp only [fitPlan, vscale, vadd, Vec3.mk.injEq]
    refine ⟨by ring, by ring, by ring⟩
  · simp only [fitPlan, vnormalize, hlen, if_neg hne, vscale, vadd, vsub, Vec3.mk.injEq]
    refine ⟨by ring, by ring, by ring⟩

/-- Witness for `camera_fit_formulas` at the concrete volume
`min = (0,0,0)`, `max = (1,2,3)`. -/
theorem camera_fit_formulas_witness :
    ((Vec3.mk 0 0 0).x ≤ (Vec3.mk 1 2 3).x ∧ (Vec3.mk 0 0 0).y ≤ (Vec3.mk 1 2 3).y ∧
      (Vec3.mk 0 0 0).z ≤ (Vec3.mk 1 2 3).z) ∧
    (∃ k : ℝ, 5 / 2 ≤ k ∧ k ≤ 3 ∧
      (fitPlan ⟨0, 0, 0⟩ ⟨1, 2, 3⟩).distance =
        max ((Vec3.mk 1 2 3).x - (Vec3.mk 0 0 0).x)
          (max ((Vec3.mk 1 2 3).y - (Vec3.mk 0 0 0).y)
            ((Vec3.mk 1 2 3).z - (Vec3.mk 0 0 0).z)) * k ∧
      (fitPlan ⟨0, 0, 0⟩ ⟨1, 2, 3⟩).lookAt =
        ⟨((Vec3.mk 0 0 0).x + (Vec3.mk 1 2 3).x) / 2,
          ((Vec3.mk 0 0 0).y + (Vec3.mk 1 2 3).y) / 2,
          ((Vec3.mk 0 0 0).z + (Vec3.mk 1 2 3).z) / 2⟩ ∧
      (fitPlan ⟨0, 0, 0⟩ ⟨1, 2, 3⟩).position =
        ⟨((Vec3.mk 0 0 0).x + (Vec3.mk 1 2 3).x) / 2 +
            (fitPlan ⟨0, 0, 0⟩ ⟨1, 2, 3⟩).distance / Real.sqrt 3,
          ((Vec3.mk 0 0 0).y + (Vec3.mk 1 2 3).y) / 2 +
            (fitPlan ⟨0, 0, 0⟩ ⟨1, 2, 3⟩).distance / Real.sqrt 3,
          ((Vec3.mk 0 0 0).z + (Vec3.mk 1 2 3).z) / 2 +
            (fitPlan ⟨0, 0, 0⟩ ⟨1, 2, 3⟩).distance / Real.sqrt 3⟩) :=
  ⟨⟨by norm_num, by norm_num, by norm_num⟩,
    camera_fit_formulas ⟨0, 0, 0⟩ ⟨1, 2, 3⟩ ⟨by norm_num, by norm_num, by norm_num⟩⟩

/-- C8 (amended).  The fitted flag starts false on every new load.  The
first controller invocation computes and installs the plan but only
schedules a deferred `setFitted(true)` (`setTimeout`, 100 ms) — the flag
is not set immediately, so invocations arriving before the callback fires
recompute the plan; such recomputations install the identical plan for
the unchanged mesh.  Once a scheduled callback fires the flag is true,
and from then on every invocation before the next load leaves the whole
state — in particular the installed plan — unchanged. -/
theorem camera_fit_flag_amended :
    (∀ (b : Vec3 × Vec3) (s : CtrlState), (loadMesh b s).fitted = false) ∧
    (∀ s : CtrlState, s.fitted = true → invokeController s = s) ∧
    (∀ s : CtrlState,
      (invokeController (invokeController s)).plan = (invokeController s).plan) ∧
    (∀ (s : CtrlState) (p : Nat), s.pending = p + 1 → (timerFire s).fitted = true) := by
  refine ⟨fun b s => rfl, ?_, ?_, ?_⟩
  · intro s h
    cases hm : s.mesh with
    | none => simp [invokeController, hm]
    | some b => simp [invokeController, hm, h]
  · intro s
    cases hm : s.mesh with
    | none => simp [invokeController, hm]
    | some b =>
      by_cases hf : s.fitted = true
      · simp [invokeController, hm, hf]
      · simp only [Bool.not_eq_true] at hf
        simp [invokeController, hm, hf]
  · intro s p h
    simp [timerFire, h]

/-- Witness for `camera_fit_flag_amended`: a fitted state is left
untouched by an invocation, and a state with one pending callback becomes
fitted when it fires. -/
theorem camera_fit_flag_amended_witness :
    invokeController ⟨some (⟨0, 0, 0⟩, ⟨1, 1, 1⟩), true, none, 0, 0⟩ =
        ⟨some (⟨0, 0, 0⟩, ⟨1, 1, 1⟩), true, none, 0, 0⟩ ∧
      (timerFire ⟨none, false, none, 1, 0⟩).fitted = true :=
  ⟨camera_fit_flag_amended.2.1 _ rfl, camera_fit_flag_amended.2.2.2 _ 0 rfl⟩

/-- Counterexample to C8 as stated.  C8 claims the fitted flag is set
true immediately after the first successful computation and that the plan
is computed at most once per loaded mesh.  In the trace
load → invoke → invoke, the flag is still false after the first
invocation (only a deferred `setTimeout` was scheduled), and the second
invocation therefore computes the plan a second time: the computation
counter reaches 2. -/
theorem camera_fit_once_counterexample :
    (invokeController
        (loadMesh (⟨0, 0, 0⟩, ⟨1, 1, 1⟩) ⟨none, false, none, 0, 0⟩)).fitted = false ∧
      (invokeController (invokeController
        (loadMesh (⟨0, 0, 0⟩, ⟨1, 1, 1⟩) ⟨none, false, none, 0, 0⟩))).computations = 2 :=
  ⟨rfl, rfl⟩

/-- C9.  For every input whose decode fails, the failure is caught at the
`loadSTLFile` boundary and converted to a user-facing message; the
handler is a total function (the host process does not crash), the
previously installed mesh and fitted flag remain unchanged, and no
partial decode result is installed (the mesh is replaced only in the
success branch, atomically). -/
theorem decode_failure_boundary (s : LoadState) (c : RawInput)
    (h : ∃ e, parseSTL c = .error e) :
    (loadSTLFile s c).1.mesh = s.mesh ∧
      (loadSTLFile s c).1.fitted = s.fitted ∧
      (loadSTLFile s c).2.isSome = true := by
  obtain ⟨e, he⟩ := h
  simp [loadSTLFile, he]

/-- Witness for `decode_failure_boundary`: a truncated untyped input
fails to decode, and the previously displayed mesh survives. -/
theorem decode_failure_boundary_witness :
    (∃ e, parseSTL (.untyped []) = .error e) ∧
      (loadSTLFile ⟨some (.binaryGeo [(1, 2, 3)]), true, false⟩ (.untyped [])).1.mesh =
        (LoadState.mk (some (.binaryGeo [(1, 2, 3)])) true false).mesh ∧
      (loadSTLFile ⟨some (.binaryGeo [(1, 2, 3)]), true, false⟩ (.untyped [])).2.isSome =
        true :=
  ⟨⟨.rangeError, rfl⟩,
    (decode_failure_boundary ⟨some (.binaryGeo [(1, 2, 3)]), true, false⟩ (.untyped [])
      ⟨.rangeError, rfl⟩).1,
    (decode_failure_boundary ⟨some (.binaryGeo [(1, 2, 3)]), true, false⟩ (.untyped [])
      ⟨.rangeError, rfl⟩).2.2⟩

/-- C10.  Every file accepted through the upload interface is read with
`readAsArrayBuffer` (both branches of the read-mode conditional are
identical), so `parseSTL` receives a pre-typed binary buffer, classifies
it binary, and invokes the binary decoder; the ASCII decoder is
unreachable from the upload path, and an ASCII-encoded STL file selected
by the user is processed by the binary decoder like any other. -/
theorem parseSTL_typedBuf (bytes : List Nat) :
    parseSTL (.typedBuf bytes) = binRoute bytes := by
  simp only [parseSTL, detectFormat, binRoute, RawInput.bytes]

theorem upload_binary_route (ftype fname : String) (bytes : List Nat)
    (hacc : acceptsFile ftype fname = true) :
    readContents fname bytes = .typedBuf bytes ∧
      detectFormat (.typedBuf bytes) = some .binaryFmt ∧
      parseSTL (readContents fname bytes) = binRoute bytes ∧
      (∀ g, parseSTL (readContents fname bytes) = .ok g →
        ∃ pts, g = .binaryGeo pts) := by
  have hmode : chooseReadMode fname = .asArrayBuffer := by
    rw [chooseReadMode]
    split <;> rfl
  have hread : readContents fname bytes = .typedBuf bytes := by
    rw [readContents, hmode]
  refine ⟨hread, rfl, ?_, ?_⟩
  · rw [hread, parseSTL_typedBuf]
  · intro g hg
    rw [hread, parseSTL_typedBuf, binRoute] at hg
    rcases hb : parseBinarySTL bytes with _ | pts
    · rw [hb] at hg
      exact absurd hg (by simp)
    · rw [hb] at hg
      simp only [Except.ok.injEq] at hg
      exact ⟨pts, hg.symm⟩

/-- Witness for `upload_binary_route`: an accepted `cube.stl` of type
`model/stl` takes the binary route. -/
theorem upload_binary_route_witness :
    acceptsFile "model/stl" "cube.stl" = true ∧
      readContents "cube.stl" [] = .typedBuf [] ∧
      parseSTL (readContents "cube.stl" []) = binRoute [] :=
  ⟨by decide,
    (upload_binary_route "model/stl" "cube.stl" [] (by decide)).1,
    (upload_binary_route "model/stl" "cube.stl" [] (by decide)).2.2.1⟩
